import Mathlib

/-!
Verification of the notification-service pipeline: a shallow embedding of
the notification record model (models/Notification.js), the queue
submission layer (services/queueService.js), the per-channel senders
(services/smsService.js, emailService.js, inAppService.js), the worker
(services/notificationProcessor.js) and the HTTP routes that mutate
records (routes/notifications.js, routes/users.js), together with proofs
of the spec's testable properties.

JavaScript strings are modelled as Lean `String`/`List Char` (the source
only manipulates BMP text, where JS `.length`/`substring` agree with
character counts).  Timestamps (`new Date()`) are modelled as `Nat`
values supplied by the caller.  Mongoose documents are modelled as a
record value in an association-list store keyed by the document id;
`save()` is the corresponding store update.
-/

/-- A persisted notification document (models/Notification.js).  The
`metadata` map is opaque to every operation modelled here except SMS body
formatting, which receives its two relevant entries explicitly, so it is
omitted from the record. -/
structure NotificationRecord where
  userId : String
  ntype : String
  subject : Option String
  message : String
  recipient : Option String
  status : String
  priority : String
  attempts : Nat
  maxAttempts : Nat
  errorMessage : Option String
  sentAt : Option Nat
  failedAt : Option Nat
  jobId : Option Nat
deriving Repr, DecidableEq

/-- `notificationSchema.methods.markAsFailed`: set status "failed", stamp
`failedAt`, record the error message. -/
def markAsFailed (n : NotificationRecord) (msg : String) (now : Nat) : NotificationRecord :=
  { n with status := "failed", failedAt := some now, errorMessage := some msg }

/-- `notificationSchema.methods.markAsSent`: set status "sent" and stamp
`sentAt`.  Note that it does not clear `failedAt`. -/
def markAsSent (n : NotificationRecord) (now : Nat) : NotificationRecord :=
  { n with status := "sent", sentAt := some now }

/-- `notificationSchema.methods.incrementAttempts`: bump the attempt
counter and move the record to "processing". -/
def incrementAttempts (n : NotificationRecord) : NotificationRecord :=
  { n with attempts := n.attempts + 1, status := "processing" }

/-- The record store (MongoDB collection) as an association list keyed by
document id. -/
abbrev Store := List (String × NotificationRecord)

/-- `Notification.findById`. -/
def findRecord : Store → String → Option NotificationRecord
  | [], _ => none
  | (k, r) :: rest, id => if k = id then some r else findRecord rest id

/-- Persisting a document (`save()`): replace the entry with this id, or
insert it when absent. -/
def updateRecord : Store → String → NotificationRecord → Store
  | [], id, r => [(id, r)]
  | (k, x) :: rest, id, r =>
      if k = id then (id, r) :: rest else (k, x) :: updateRecord rest id r

/-- `Notification.findByIdAndDelete`. -/
def deleteRecord : Store → String → Store
  | [], _ => []
  | (k, x) :: rest, id => if k = id then rest else (k, x) :: deleteRecord rest id

theorem findRecord_updateRecord_self (s : Store) (id : String) (r : NotificationRecord) :
    findRecord (updateRecord s id r) id = some r := by
  induction s with
  | nil => simp [updateRecord, findRecord]
  | cons hd tl ih =>
      obtain ⟨k, x⟩ := hd
      by_cases h : k = id
      · simp [updateRecord, findRecord, h]
      · simp [updateRecord, findRecord, h, ih]

theorem findRecord_updateRecord_other (s : Store) (id j : String) (r : NotificationRecord)
    (h : j ≠ id) : findRecord (updateRecord s id r) j = findRecord s j := by
  induction s with
  | nil => simp [updateRecord, findRecord, Ne.symm h]
  | cons hd tl ih =>
      obtain ⟨k, x⟩ := hd
      by_cases hk : k = id
      · subst hk
        simp [updateRecord, findRecord, Ne.symm h]
      · simp [updateRecord, findRecord, hk, ih]

theorem findRecord_deleteRecord (s : Store) (id j : String) (h : j ≠ id) :
    findRecord (deleteRecord s id) j = findRecord s j := by
  induction s with
  | nil => simp [deleteRecord]
  | cons hd tl ih =>
      obtain ⟨k, x⟩ := hd
      by_cases hk : k = id
      · subst hk
        simp [deleteRecord, findRecord, Ne.symm h, ih]
      · simp [deleteRecord, findRecord, hk, ih]

/-- Outcome of a channel sender call: either a receipt or a thrown
`Error` whose `.message` is recorded. -/
inductive SendOutcome where
  | ok
  | err (msg : String)
deriving Repr, DecidableEq

/-- The external transport environment for one processor invocation:
whether the Twilio client / nodemailer transporter were initialized, and
the outcome the external transport would return if reached.  Transport
results are genuine I/O and enter the model as oracles. -/
structure SendEnv where
  smsReady : Bool
  smsTransport : SendOutcome
  emailReady : Bool
  emailTransport : SendOutcome
deriving Repr, DecidableEq

def isDigitChar (c : Char) : Bool := '0' ≤ c && c ≤ '9'

def isNonzeroDigitChar (c : Char) : Bool := '1' ≤ c && c ≤ '9'

/-- `SMSService.isValidPhoneNumber`: the regex `^\+[1-9]\d{1,14}$` — a
'+' sign, one nonzero digit, then between 1 and 14 further digits. -/
def isValidPhoneNumber (s : String) : Bool :=
  match s.data with
  | c :: d :: rest =>
      decide (c = '+') && isNonzeroDigitChar d && rest.all isDigitChar &&
        decide (1 ≤ rest.length) && decide (rest.length ≤ 14)
  | _ => false

/-- The body composed by `SMSService.formatSMSMessage` before the length
check: optional `senderName: ` prefix, optional `\n\n`-separated short
URL suffix.  `none` for a metadata entry covers both an absent key and a
falsy (empty-string) value, matching the JS truthiness tests. -/
def composeSMS (message : List Char) (senderName shortUrl : Option (List Char)) : List Char :=
  let m1 := match senderName with
    | some s => s ++ (": ").data ++ message
    | none => message
  match shortUrl with
  | some u => m1 ++ ("\n\n").data ++ u
  | none => m1

/-- `SMSService.formatSMSMessage`: compose the body, then truncate to the
1600-character SMS limit, replacing the tail with "..." when over it. -/
def formatSMSMessage (message : List Char) (senderName shortUrl : Option (List Char)) :
    List Char :=
  let m := composeSMS message senderName shortUrl
  if 1600 < m.length then m.take 1597 ++ ("...").data else m

/-- `SMSService.sendSMS`: fail when the client is missing, fail with the
invalid-format error when the recipient does not pass
`isValidPhoneNumber`, otherwise return the transport's outcome.  The
composed body (`formatSMSMessage`) does not influence the outcome and is
elided here. -/
def sendSMS (env : SendEnv) (n : NotificationRecord) : SendOutcome :=
  if env.smsReady = false then .err "SMS service not initialized"
  else
    -- JS interpolates an absent recipient as the text "undefined".
    let rtext := n.recipient.getD "undefined"
    if isValidPhoneNumber rtext then env.smsTransport
    else .err ("Invalid phone number format: " ++ rtext)

/-- `EmailService.sendEmail`: fail when the transporter is missing,
otherwise the nodemailer transport's outcome (mail construction is pure
and cannot fail). -/
def sendEmail (env : SendEnv) : SendOutcome :=
  if env.emailReady = false then .err "Email transporter not initialized"
  else env.emailTransport

/-- `InAppService.createInAppNotification`: formatting is pure and
`broadcastToUser` swallows its own errors and never throws, so the call
always succeeds. -/
def createInApp : SendOutcome := .ok

/-- The `switch (type)` dispatch inside `processNotification`. -/
def dispatch (env : SendEnv) (jobType : String) (n : NotificationRecord) : SendOutcome :=
  if jobType = "email" then sendEmail env
  else if jobType = "sms" then sendSMS env n
  else if jobType = "in-app" then createInApp
  else .err ("Unknown notification type: " ++ jobType)

/-- A Bull job as seen by the worker: the record id and channel type from
`job.data`, the queue's `attemptsMade` counter, the per-job attempt
budget `job.opts.attempts`, the scheduler priority, the enqueue sequence
number (Bull's monotonically increasing job id) and whether the job has
reached a terminal completed state. -/
structure Job where
  notificationId : String
  jtype : String
  priorityRank : Nat
  attemptsMade : Nat
  optsAttempts : Nat
  seq : Nat
  completed : Bool
deriving Repr, DecidableEq

/-- The property names a plain JS object literal inherits from
`Object.prototype`: a bracket lookup on `{low: 1, medium: 2, high: 3}`
with one of these keys returns the inherited member (a truthy function
or, for `__proto__`, the prototype object) rather than undefined. -/
def objectPrototypeKeys : List String :=
  ["constructor", "hasOwnProperty", "isPrototypeOf", "propertyIsEnumerable",
   "toLocaleString", "toString", "valueOf", "__defineGetter__", "__defineSetter__",
   "__lookupGetter__", "__lookupSetter__", "__proto__"]

/-- The possible results of the JS bracket lookup on the priority map
object: one of its own numeric properties, a member inherited from
Object.prototype (represented by its key), or undefined. -/
inductive JSLookup where
  | num (n : Nat)
  | protoMember (name : String)
  | jsUndefined
deriving Repr, DecidableEq

/-- `priorityMap[priority]` inside `addToQueue`: the object literal
`{low: 1, medium: 2, high: 3}` has its three own properties, and a
missed lookup falls through to Object.prototype before coming back
undefined. -/
def priorityMap (p : String) : JSLookup :=
  if p = "low" then .num 1
  else if p = "medium" then .num 2
  else if p = "high" then .num 3
  else if p ∈ objectPrototypeKeys then .protoMember p
  else .jsUndefined

/-- The enqueued option `priorityMap[priority] || 2`: JS `||` keeps a
truthy left operand.  Every own value (1, 2, 3) and every inherited
Object.prototype member is truthy, so only the undefined lookup is
replaced by 2. -/
def priorityOption (p : String) : JSLookup :=
  match priorityMap p with
  | .jsUndefined => .num 2
  | v => v

/-- The numeric rank the modelled scheduler sorts by when the enqueued
priority option is a number.  A proto-member option is not a number, and
neither the source nor the spec says how Bull would rank the inherited
function it receives, so it is mapped to the out-of-band marker 0, a
value no numeric option can produce (the own values and the default are
1, 2 and 3); no theorem relies on the marker. -/
def JSLookup.toRank : JSLookup → Nat
  | .num n => n
  | .protoMember _ => 0
  | .jsUndefined => 0

/-- `queueService.addToQueue`: snapshot the record into a job, with
`priority: priorityMap[priority] || 2` (see `priorityOption`) and
`attempts: notification.maxAttempts`.  `priority = none` models calling
`addToQueue` without the second argument, whose JS default is
"medium". -/
def addToQueue (seq : Nat) (nid : String) (n : NotificationRecord) (priority : Option String) :
    Job :=
  { notificationId := nid
    jtype := n.ntype
    priorityRank := (priorityOption (priority.getD "medium")).toRank
    attemptsMade := 0
    optsAttempts := n.maxAttempts
    seq := seq
    completed := false }

/-- What `processNotification` returns to Bull: a normal completion
(`{status: "already_sent"}` or `{status: "sent"}`), or a thrown error
whose message Bull records. -/
inductive ProcResult where
  | alreadySent
  | sent
  | errored (msg : String)
deriving Repr, DecidableEq

/-- `notificationProcessor.processNotification` acting on the record
store: load the record (throw RecordNotFound when missing), short-circuit
when it is already "sent", otherwise persist the attempt increment,
dispatch to the channel sender, and on success mark sent; on a sender
error re-read the record and mark it failed only when this was the final
budgeted attempt (`job.attemptsMade + 1 >= job.opts.attempts`), then
rethrow the error. -/
def processNotification (env : SendEnv) (now : Nat) (store : Store) (job : Job) :
    ProcResult × Store :=
  match findRecord store job.notificationId with
  | none => (.errored ("Notification not found: " ++ job.notificationId), store)
  | some n =>
      if n.status = "sent" then (.alreadySent, store)
      else
        let n1 := incrementAttempts n
        let store1 := updateRecord store job.notificationId n1
        match dispatch env job.jtype n1 with
        | .ok => (.sent, updateRecord store1 job.notificationId (markAsSent n1 now))
        | .err msg =>
            if job.attemptsMade + 1 ≥ job.optsAttempts then
              (.errored msg, updateRecord store1 job.notificationId (markAsFailed n1 msg now))
            else
              (.errored msg, store1)

/-- Modelled from the spec: the Bull scheduler's dequeue policy is an
external dependency absent from the sources.  Per the spec's queue
contract, a waiting job is handed to a worker before another exactly when
it has the higher `priorityRank`, ties broken strictly FIFO by enqueue
order (Bull's increasing job sequence numbers). -/
def servedBefore (a b : Job) : Bool :=
  decide (b.priorityRank < a.priorityRank) ||
    (decide (a.priorityRank = b.priorityRank) && decide (a.seq < b.seq))

/-- The job the modelled scheduler hands out first among a list of
waiting jobs. -/
def nextJob : List Job → Option Job
  | [] => none
  | j :: rest =>
      match nextJob rest with
      | none => some j
      | some b => if servedBefore b j then some b else some j

/-- The claim's description of the validator: a '+' followed by 1 to 15
digits whose first digit is nonzero. -/
def claimPhonePattern (s : String) : Bool :=
  match s.data with
  | c :: d :: rest =>
      decide (c = '+') && isNonzeroDigitChar d && rest.all isDigitChar &&
        decide (rest.length ≤ 14)
  | _ => false

/-- The amended description: a '+' followed by 2 to 15 digits whose first
digit is nonzero (the regex `[1-9]\d{1,14}` demands at least one digit
after the nonzero one). -/
def amendedPhonePattern (s : String) : Prop :=
  ∃ d rest, s.data = '+' :: d :: rest ∧ isNonzeroDigitChar d = true ∧
    (∀ c ∈ rest, isDigitChar c = true) ∧ 1 ≤ rest.length ∧ rest.length ≤ 14

/-- Claim C8, refuted: the string "+7" is a '+' followed by one nonzero
digit, so the claimed characterisation (1 to 15 digits) accepts it, but
`isValidPhoneNumber` rejects it — the regex requires at least two
digits. -/
theorem C8_counterexample :
    claimPhonePattern "+7" = true ∧ isValidPhoneNumber "+7" = false := by
  constructor <;> rfl

/-- Claim C8 as amended: the SMS recipient validator accepts a string
exactly when it is a '+' followed by 2 to 15 digits whose first digit is
nonzero, and rejects every other string. -/
theorem C8_amended (s : String) : isValidPhoneNumber s = true ↔ amendedPhonePattern s := by
  unfold isValidPhoneNumber amendedPhonePattern
  cases hs : s.data with
  | nil => simp
  | cons c tl =>
      cases tl with
      | nil => simp
      | cons d rest =>
          simp only [Bool.and_eq_true, decide_eq_true_eq, List.all_eq_true]
          constructor
          · rintro ⟨⟨⟨⟨rfl, hd⟩, hdig⟩, hlen1⟩, hlen2⟩
            exact ⟨d, rest, rfl, hd, hdig, hlen1, hlen2⟩
          · rintro ⟨d', rest', heq, hd, hdig, hlen1, hlen2⟩
            injection heq with h1 h2
            injection h2 with h3 h4
            subst h1
            subst h3
            subst h4
            exact ⟨⟨⟨⟨rfl, hd⟩, hdig⟩, hlen1⟩, hlen2⟩

/-- Claim C9: the composed SMS body is truncated to at most 1600
characters; when the composition exceeded the limit the result ends with
the "..." marker, and otherwise the composition is returned
unmodified. -/
theorem C9_sms_truncation (message : List Char) (senderName shortUrl : Option (List Char)) :
    (formatSMSMessage message senderName shortUrl).length ≤ 1600 ∧
    (1600 < (composeSMS message senderName shortUrl).length →
      List.IsSuffix ("...").data (formatSMSMessage message senderName shortUrl)) ∧
    ((composeSMS message senderName shortUrl).length ≤ 1600 →
      formatSMSMessage message senderName shortUrl = composeSMS message senderName shortUrl) := by
  unfold formatSMSMessage
  by_cases h : 1600 < (composeSMS message senderName shortUrl).length
  · rw [if_pos h]
    refine ⟨?_, fun _ => ⟨_, rfl⟩, fun hc => absurd h (by omega)⟩
    rw [List.length_append, List.length_take]
    simp only [List.length_cons, List.length_nil]
    omega
  · rw [if_neg h]
    exact ⟨by omega, fun hc => absurd hc h, fun _ => rfl⟩

/-- Claim C10, refuted: the priority argument "toString" lies outside
{low, medium, high}, yet the enqueued option is NOT 2: the bracket
lookup `priorityMap["toString"]` returns the member inherited from
Object.prototype, which is truthy, so `|| 2` never fires and the job is
enqueued with that function rather than the number 2. -/
theorem C10_counterexample :
    priorityOption "toString" = .protoMember "toString" ∧
    priorityOption "toString" ≠ .num 2 := by
  exact ⟨rfl, by decide⟩

/-- Claim C10 as amended: low, medium and high map to priority options
1, 2 and 3; an omitted argument defaults to "medium" and hence option 2;
any other string that is not a property name inherited from
Object.prototype yields option 2; but a string naming an
Object.prototype member passes the inherited truthy member through as
the enqueued priority option instead of 2. -/
theorem C10_amended_priority_default (seq : Nat) (nid : String) (n : NotificationRecord) :
    (addToQueue seq nid n (some "low")).priorityRank = 1 ∧
    (addToQueue seq nid n (some "medium")).priorityRank = 2 ∧
    (addToQueue seq nid n (some "high")).priorityRank = 3 ∧
    (addToQueue seq nid n none).priorityRank = 2 ∧
    (∀ p : String, p ≠ "low" → p ≠ "medium" → p ≠ "high" → p ∉ objectPrototypeKeys →
      priorityOption p = .num 2 ∧ (addToQueue seq nid n (some p)).priorityRank = 2) ∧
    (∀ p : String, p ≠ "low" → p ≠ "medium" → p ≠ "high" → p ∈ objectPrototypeKeys →
      priorityOption p = .protoMember p) := by
  refine ⟨rfl, rfl, rfl, rfl, fun p h1 h2 h3 h4 => ⟨?_, ?_⟩, fun p h1 h2 h3 h4 => ?_⟩
  · simp [priorityOption, priorityMap, h1, h2, h3, h4]
  · simp [addToQueue, priorityOption, priorityMap, JSLookup.toRank, h1, h2, h3, h4]
  · simp [priorityOption, priorityMap, h1, h2, h3, h4]

/-- Claim C1: a job enqueued with priority "high" is served before an
earlier job enqueued with priority "low" (rank 3 beats rank 1), and
within equal priorityRank the modelled scheduler is FIFO by enqueue
order. -/
theorem C1_priority_ordering (seqA seqB : Nat) (idA idB : String)
    (nA nB : NotificationRecord) (henq : seqA < seqB) :
    servedBefore (addToQueue seqB idB nB (some "high"))
        (addToQueue seqA idA nA (some "low")) = true ∧
    nextJob [addToQueue seqA idA nA (some "low"), addToQueue seqB idB nB (some "high")] =
      some (addToQueue seqB idB nB (some "high")) ∧
    ∀ a b : Job, a.priorityRank = b.priorityRank → a.seq < b.seq →
      servedBefore a b = true := by
  refine ⟨?_, ?_, fun a b hr hs => ?_⟩
  · simp [servedBefore, addToQueue, priorityOption, priorityMap, JSLookup.toRank]
  · simp [nextJob, servedBefore, addToQueue, priorityOption, priorityMap, JSLookup.toRank]
  · simp [servedBefore, hr, hs]

/-- Claim C2: when the referenced record is already "sent",
`processNotification` returns the already_sent result with the store
untouched (no attempt increment, no status change); the result does not
depend on the sender environment (no channel sender is invoked); and any
number of repeated runs of the same job leave the store unchanged.
`markAsSent` establishes exactly this "sent" status after a successful
send. -/
theorem C2_already_sent_idempotent (env env' : SendEnv) (now now' : Nat) (store : Store)
    (job : Job) (r : NotificationRecord)
    (hfind : findRecord store job.notificationId = some r) (hs : r.status = "sent") :
    processNotification env now store job = (.alreadySent, store) ∧
    processNotification env now store job = processNotification env' now' store job ∧
    (∀ k : Nat, (fun st => (processNotification env now st job).2)^[k] store = store) ∧
    (∀ (x : NotificationRecord) (t : Nat), (markAsSent x t).status = "sent") := by
  have h1 : processNotification env now store job = (.alreadySent, store) := by
    unfold processNotification
    rw [hfind]
    simp [hs]
  have h1' : processNotification env' now' store job = (.alreadySent, store) := by
    unfold processNotification
    rw [hfind]
    simp [hs]
  refine ⟨h1, h1.trans h1'.symm, fun k => ?_, fun x t => rfl⟩
  induction k with
  | zero => rfl
  | succ m ih =>
      rw [Function.iterate_succ_apply, h1]
      exact ih

/-- The body of a POST /notifications request
(routes/notifications.js). -/
structure SubmitPayload where
  userId : String
  ptype : String
  subject : Option String
  message : String
  recipient : Option String
  priority : Option String
deriving Repr, DecidableEq

/-- The express-validator checks guarding POST /notifications: userId and
message nonempty, type in the channel enum, subject required for email,
recipient required for email and sms, priority (when given) in the
priority enum. -/
def validSubmission (p : SubmitPayload) : Bool :=
  decide (p.userId ≠ "") && decide (p.message ≠ "") &&
    (decide (p.ptype = "email") || decide (p.ptype = "sms") || decide (p.ptype = "in-app")) &&
    (!decide (p.ptype = "email") || decide ((p.subject.getD "") ≠ "")) &&
    (!(decide (p.ptype = "email") || decide (p.ptype = "sms")) ||
      decide ((p.recipient.getD "") ≠ "")) &&
    (match p.priority with
     | none => true
     | some pr => decide (pr = "low") || decide (pr = "medium") || decide (pr = "high"))

/-- The record built and saved by POST /notifications: fresh document
with schema defaults `status` overwritten to "queued" once the job id is
attached, `attempts = 0`, `maxAttempts = 3` (the route never passes
maxAttempts), no timestamps, priority defaulted to "medium". -/
def recordOfSubmission (p : SubmitPayload) (seq : Nat) : NotificationRecord :=
  { userId := p.userId
    ntype := p.ptype
    subject := p.subject
    message := p.message
    recipient := p.recipient
    status := "queued"
    priority := p.priority.getD "medium"
    attempts := 0
    maxAttempts := 3
    errorMessage := none
    sentAt := none
    failedAt := none
    jobId := some seq }

/-- The whole pipeline's state: the record store, the Bull jobs (indexed
by position), the ids MongoDB has ever handed out (object ids are never
reused), the next Bull sequence number, and a ghost counter of processor
invocations used to state retry-count properties. -/
structure SysState where
  store : Store
  jobs : List Job
  usedIds : List String
  nextSeq : Nat
  calls : Nat
deriving Repr, DecidableEq

/-- The empty initial state. -/
def initState : SysState :=
  { store := [], jobs := [], usedIds := [], nextSeq := 0, calls := 0 }

/-- One observable event of the system. -/
inductive SysAction where
  /-- POST /notifications with a fresh MongoDB id: validate, save the
  record, `addToQueue` it, attach the job id. -/
  | submit (id : String) (p : SubmitPayload)
  /-- Bull hands job `i` to a worker, which runs `processNotification`.
  Per the spec's queue contract a job runs only while it has attempt
  budget left and is not terminal; a normal return completes the job and
  a thrown error increments `attemptsMade` (rescheduling with backoff
  while budget remains, terminal failed otherwise). -/
  | work (i : Nat) (env : SendEnv) (now : Nat)
  /-- PATCH /users/:id/notifications/:nid/read: `markAsSent` on a
  matching in-app record. -/
  | readRoute (userId id : String) (now : Nat)
  /-- DELETE /notifications/:id. -/
  | deleteRoute (id : String)
  /-- `queueService.retryFailedJob`: re-enters the job into waiting only
  while `job.opts.attempts > job.attemptsMade`; it changes no counter, so
  it is a state no-op in this model. -/
  | retryJob (i : Nat)
deriving Repr, DecidableEq

/-- Update of a Bull job after one processor run: a thrown error counts
an attempt; a normal return (sent or already_sent) completes the job. -/
def applyResult (j : Job) (res : ProcResult) : Job :=
  match res with
  | .errored _ => { j with attemptsMade := j.attemptsMade + 1 }
  | _ => { j with completed := true }

/-- The transition function of the pipeline. -/
def stepAction (s : SysState) (a : SysAction) : SysState :=
  match a with
  | .submit id p =>
      if validSubmission p = true ∧ id ∉ s.usedIds then
        let r := recordOfSubmission p s.nextSeq
        { s with
          store := updateRecord s.store id r
          jobs := s.jobs ++ [addToQueue s.nextSeq id r p.priority]
          usedIds := id :: s.usedIds
          nextSeq := s.nextSeq + 1 }
      else s
  | .work i env now =>
      match s.jobs.get? i with
      | none => s
      | some j =>
          if j.completed = false ∧ j.attemptsMade < j.optsAttempts then
            let out := processNotification env now s.store j
            { s with
              store := out.2
              jobs := s.jobs.set i (applyResult j out.1)
              calls := s.calls + 1 }
          else s
  | .readRoute userId id now =>
      match findRecord s.store id with
      | none => s
      | some r =>
          if r.userId = userId ∧ r.ntype = "in-app" then
            { s with store := updateRecord s.store id (markAsSent r now) }
          else s
  | .deleteRoute id => { s with store := deleteRecord s.store id }
  | .retryJob _ => s

/-- Run a sequence of events from a state. -/
def runActions (s : SysState) : List SysAction → SysState
  | [] => s
  | a :: rest => runActions (stepAction s a) rest

theorem updateRecord_updateRecord (s : Store) (id : String) (a b : NotificationRecord) :
    updateRecord (updateRecord s id a) id b = updateRecord s id b := by
  induction s with
  | nil => simp [updateRecord]
  | cons hd tl ih =>
      obtain ⟨k, x⟩ := hd
      by_cases hk : k = id
      · simp [updateRecord, hk]
      · simp [updateRecord, hk, ih]

theorem updateRecord_cons_self (k : String) (x r : NotificationRecord) (tl : Store) :
    updateRecord ((k, x) :: tl) k r = (k, r) :: tl := by
  simp [updateRecord]

theorem updateRecord_cons_ne (k id : String) (x r : NotificationRecord) (tl : Store)
    (h : k ≠ id) : updateRecord ((k, x) :: tl) id r = (k, x) :: updateRecord tl id r := by
  simp [updateRecord, h]

theorem mem_keys_updateRecord (s : Store) (id a : String) (r : NotificationRecord) :
    a ∈ (updateRecord s id r).map Prod.fst → a ∈ s.map Prod.fst ∨ a = id := by
  induction s with
  | nil =>
      intro h
      simp only [updateRecord, List.map_cons, List.map_nil, List.mem_singleton] at h
      exact Or.inr h
  | cons hd tl ih =>
      obtain ⟨k, x⟩ := hd
      intro h
      by_cases hk : k = id
      · subst hk
        rw [updateRecord_cons_self, List.map_cons, List.mem_cons] at h
        simp only [List.map_cons, List.mem_cons]
        rcases h with h | h
        · exact Or.inr h
        · exact Or.inl (Or.inr h)
      · rw [updateRecord_cons_ne k id x r tl hk, List.map_cons, List.mem_cons] at h
        simp only [List.map_cons, List.mem_cons]
        rcases h with h | h
        · exact Or.inl (Or.inl h)
        · rcases ih h with h' | h'
          · exact Or.inl (Or.inr h')
          · exact Or.inr h'

theorem keysNodup_updateRecord (s : Store) (id : String) (r : NotificationRecord) :
    (s.map Prod.fst).Nodup → ((updateRecord s id r).map Prod.fst).Nodup := by
  induction s with
  | nil => intro _; simp [updateRecord]
  | cons hd tl ih =>
      obtain ⟨k, x⟩ := hd
      intro h
      simp only [List.map_cons, List.nodup_cons] at h
      obtain ⟨hk1, hk2⟩ := h
      by_cases hk : k = id
      · subst hk
        rw [updateRecord_cons_self, List.map_cons, List.nodup_cons]
        exact ⟨hk1, hk2⟩
      · rw [updateRecord_cons_ne k id x r tl hk, List.map_cons, List.nodup_cons]
        refine ⟨fun hmem => ?_, ih hk2⟩
        rcases mem_keys_updateRecord tl id k r hmem with h' | h'
        · exact hk1 h'
        · exact hk h'

theorem sublist_deleteRecord (s : Store) (id : String) :
    List.Sublist (deleteRecord s id) s := by
  induction s with
  | nil => simp [deleteRecord]
  | cons hd tl ih =>
      obtain ⟨k, x⟩ := hd
      by_cases hk : k = id
      · simp only [deleteRecord, if_pos hk]
        exact List.sublist_cons_of_sublist _ (List.Sublist.refl tl)
      · simp only [deleteRecord, if_neg hk]
        exact List.Sublist.cons₂ _ ih

theorem keysNodup_deleteRecord (s : Store) (id : String)
    (h : (s.map Prod.fst).Nodup) : ((deleteRecord s id).map Prod.fst).Nodup :=
  List.Nodup.sublist (List.Sublist.map Prod.fst (sublist_deleteRecord s id)) h

theorem findRecord_eq_none_of_not_mem (s : Store) (id : String) :
    id ∉ s.map Prod.fst → findRecord s id = none := by
  induction s with
  | nil => intro _; rfl
  | cons hd tl ih =>
      obtain ⟨k, x⟩ := hd
      intro h
      simp only [List.map_cons, List.mem_cons] at h
      push_neg at h
      simp only [findRecord, if_neg (Ne.symm h.1), ih h.2]

theorem findRecord_deleteRecord_self (s : Store) (id : String) :
    (s.map Prod.fst).Nodup → findRecord (deleteRecord s id) id = none := by
  induction s with
  | nil => intro _; rfl
  | cons hd tl ih =>
      obtain ⟨k, x⟩ := hd
      intro h
      simp only [List.map_cons, List.nodup_cons] at h
      obtain ⟨hk1, hk2⟩ := h
      by_cases hk : k = id
      · subst hk
        simp only [deleteRecord, if_pos rfl]
        exact findRecord_eq_none_of_not_mem tl k hk1
      · simp only [deleteRecord, if_neg hk, findRecord, if_neg hk]
        exact ih hk2

theorem findRecord_deleteRecord_some (s : Store) (id j : String) (r : NotificationRecord)
    (hnd : (s.map Prod.fst).Nodup) (h : findRecord (deleteRecord s id) j = some r) :
    findRecord s j = some r := by
  by_cases hj : j = id
  · subst hj
    rw [findRecord_deleteRecord_self s j hnd] at h
    cases h
  · rwa [findRecord_deleteRecord s id j hj] at h

theorem processNotification_missing (env : SendEnv) (now : Nat) (store : Store) (job : Job)
    (h : findRecord store job.notificationId = none) :
    processNotification env now store job =
      (.errored ("Notification not found: " ++ job.notificationId), store) := by
  unfold processNotification
  rw [h]

theorem processNotification_alreadySent (env : SendEnv) (now : Nat) (store : Store)
    (job : Job) (r : NotificationRecord) (h : findRecord store job.notificationId = some r)
    (hs : r.status = "sent") : processNotification env now store job = (.alreadySent, store) := by
  unfold processNotification
  rw [h]
  simp [hs]

theorem processNotification_success (env : SendEnv) (now : Nat) (store : Store) (job : Job)
    (r : NotificationRecord) (h : findRecord store job.notificationId = some r)
    (hs : r.status ≠ "sent")
    (hd : dispatch env job.jtype (incrementAttempts r) = .ok) :
    processNotification env now store job =
      (.sent, updateRecord store job.notificationId (markAsSent (incrementAttempts r) now)) := by
  unfold processNotification
  rw [h]
  simp only [if_neg hs, hd, updateRecord_updateRecord]

theorem processNotification_err_final (env : SendEnv) (now : Nat) (store : Store) (job : Job)
    (r : NotificationRecord) (msg : String)
    (h : findRecord store job.notificationId = some r) (hs : r.status ≠ "sent")
    (hd : dispatch env job.jtype (incrementAttempts r) = .err msg)
    (hfin : job.attemptsMade + 1 ≥ job.optsAttempts) :
    processNotification env now store job =
      (.errored msg,
        updateRecord store job.notificationId (markAsFailed (incrementAttempts r) msg now)) := by
  unfold processNotification
  rw [h]
  simp only [if_neg hs, hd, if_pos hfin, updateRecord_updateRecord]

theorem processNotification_err_retry (env : SendEnv) (now : Nat) (store : Store) (job : Job)
    (r : NotificationRecord) (msg : String)
    (h : findRecord store job.notificationId = some r) (hs : r.status ≠ "sent")
    (hd : dispatch env job.jtype (incrementAttempts r) = .err msg)
    (hnf : ¬ job.attemptsMade + 1 ≥ job.optsAttempts) :
    processNotification env now store job =
      (.errored msg, updateRecord store job.notificationId (incrementAttempts r)) := by
  unfold processNotification
  rw [h]
  simp only [if_neg hs, hd, if_neg hnf]

theorem stepAction_work_run (s : SysState) (i : Nat) (j : Job) (env : SendEnv) (now : Nat)
    (hj : s.jobs.get? i = some j) (hc : j.completed = false)
    (hlt : j.attemptsMade < j.optsAttempts) :
    stepAction s (.work i env now) =
      { s with
        store := (processNotification env now s.store j).2
        jobs := s.jobs.set i (applyResult j (processNotification env now s.store j).1)
        calls := s.calls + 1 } := by
  simp only [stepAction]
  rw [hj]
  dsimp only
  rw [if_pos (⟨hc, hlt⟩ : j.completed = false ∧ j.attemptsMade < j.optsAttempts)]

/-- The record-level part of the pipeline invariant: set timestamps match
the status, terminal statuses carry their timestamp, in-app records never
fail, the attempt counter is bounded by the budget, and every stored id
was issued by the store. -/
def RecordInv (s : SysState) : Prop :=
  ∀ id r, findRecord s.store id = some r →
    (r.sentAt.isSome → r.status = "sent") ∧
    (r.failedAt.isSome → r.status = "failed") ∧
    (r.status = "sent" → r.sentAt.isSome) ∧
    (r.status = "failed" → r.failedAt.isSome) ∧
    (r.ntype = "in-app" → r.failedAt = none) ∧
    r.attempts ≤ r.maxAttempts ∧
    id ∈ s.usedIds

/-- The job-level part: every job's id was issued, and a job agrees with
the record it references (same channel type, budget copied from
maxAttempts, record attempts bounded by the job's attempt counter while
the job is live, and a failed record's job can never run again). -/
def JobInv (s : SysState) : Prop :=
  ∀ i j, s.jobs.get? i = some j →
    j.notificationId ∈ s.usedIds ∧
    ∀ r, findRecord s.store j.notificationId = some r →
      j.jtype = r.ntype ∧ j.optsAttempts = r.maxAttempts ∧
      (j.completed = false → r.attempts ≤ j.attemptsMade) ∧
      (r.status = "failed" → j.completed = true ∨ j.optsAttempts ≤ j.attemptsMade)

/-- No two jobs reference the same record (ids are never reused, and each
submission enqueues exactly one job). -/
def JobsDistinct (s : SysState) : Prop :=
  ∀ i i' j j', s.jobs.get? i = some j → s.jobs.get? i' = some j' → i ≠ i' →
    j.notificationId ≠ j'.notificationId

/-- The full pipeline invariant. -/
def SysInv (s : SysState) : Prop :=
  (s.store.map Prod.fst).Nodup ∧ RecordInv s ∧ JobInv s ∧ JobsDistinct s

theorem sysInv_initState : SysInv initState := by
  refine ⟨by simp [initState], fun id r h => ?_, fun i j h => ?_, fun i i' j j' h => ?_⟩
  · cases h
  · cases (by simpa [initState] using h : (none : Option Job) = some j)
  · cases (by simpa [initState] using h : (none : Option Job) = some j)

theorem get?_some_lt {α : Type} (l : List α) (i : Nat) (a : α) (h : l.get? i = some a) :
    i < l.length := by
  by_contra hle
  rw [List.get?_eq_none.mpr (Nat.le_of_not_lt hle)] at h
  cases h

theorem jobsDistinct_set_aux (jobs : List Job) (i : Nat) (j j2 : Job)
    (hj : jobs.get? i = some j) (hnid : j2.notificationId = j.notificationId)
    (hD : ∀ a b ja jb, jobs.get? a = some ja → jobs.get? b = some jb → a ≠ b →
      ja.notificationId ≠ jb.notificationId) :
    ∀ a b ja jb, (jobs.set i j2).get? a = some ja → (jobs.set i j2).get? b = some jb →
      a ≠ b → ja.notificationId ≠ jb.notificationId := by
  intro a b ja jb ha hb hab
  have hilen : i < jobs.length := get?_some_lt jobs i j hj
  by_cases hai : a = i
  · subst hai
    rw [List.get?_set_eq_of_lt _ hilen] at ha
    injection ha with ha
    subst ha
    by_cases hbi : b = a
    · exact absurd hbi.symm hab
    · rw [List.get?_set_ne _ _ (fun e => hbi e.symm)] at hb
      rw [hnid]
      exact hD a b j jb hj hb hab
  · rw [List.get?_set_ne _ _ (fun e => hai e.symm)] at ha
    by_cases hbi : b = i
    · subst hbi
      rw [List.get?_set_eq_of_lt _ hilen] at hb
      injection hb with hb
      subst hb
      rw [hnid]
      exact hD a b ja j ha hj hab
    · rw [List.get?_set_ne _ _ (fun e => hbi e.symm)] at hb
      exact hD a b ja jb ha hb hab

/-- Shape of the six record-level invariant clauses for a single
record. -/
def recordOk (r : NotificationRecord) : Prop :=
  (r.sentAt.isSome → r.status = "sent") ∧
  (r.failedAt.isSome → r.status = "failed") ∧
  (r.status = "sent" → r.sentAt.isSome) ∧
  (r.status = "failed" → r.failedAt.isSome) ∧
  (r.ntype = "in-app" → r.failedAt = none) ∧
  r.attempts ≤ r.maxAttempts

/-- Shape of the job/record agreement clauses. -/
def jobRecOk (j : Job) (r : NotificationRecord) : Prop :=
  j.jtype = r.ntype ∧ j.optsAttempts = r.maxAttempts ∧
  (j.completed = false → r.attempts ≤ j.attemptsMade) ∧
  (r.status = "failed" → j.completed = true ∨ j.optsAttempts ≤ j.attemptsMade)

theorem sysInv_set_job (s : SysState) (i : Nat) (j j2 : Job) (c : Nat)
    (hj : s.jobs.get? i = some j) (hnid : j2.notificationId = j.notificationId)
    (hJ2 : ∀ r, findRecord s.store j.notificationId = some r → jobRecOk j2 r)
    (h : SysInv s) :
    SysInv { s with jobs := s.jobs.set i j2, calls := c } := by
  obtain ⟨hK, hR, hJ, hD⟩ := h
  have hilen : i < s.jobs.length := get?_some_lt _ _ _ hj
  refine ⟨hK, fun id r hf => hR id r hf, ?_, ?_⟩
  · intro n jn hjn
    by_cases hni : n = i
    · subst hni
      rw [List.get?_set_eq_of_lt _ hilen] at hjn
      injection hjn with hjn
      subst hjn
      refine ⟨hnid ▸ (hJ n j hj).1, fun r hf => ?_⟩
      rw [hnid] at hf
      exact hJ2 r hf
    · rw [List.get?_set_ne _ _ (fun e => hni e.symm)] at hjn
      exact hJ n jn hjn
  · exact jobsDistinct_set_aux s.jobs i j j2 hj hnid hD

theorem sysInv_update_work (s : SysState) (i : Nat) (j j2 : Job) (c : Nat)
    (r r2 : NotificationRecord)
    (hj : s.jobs.get? i = some j)
    (hfind : findRecord s.store j.notificationId = some r)
    (hnid : j2.notificationId = j.notificationId)
    (hrec : recordOk r2)
    (hj2 : jobRecOk j2 r2)
    (h : SysInv s) :
    SysInv { s with
      store := updateRecord s.store j.notificationId r2
      jobs := s.jobs.set i j2
      calls := c } := by
  obtain ⟨hK, hR, hJ, hD⟩ := h
  have hilen : i < s.jobs.length := get?_some_lt _ _ _ hj
  refine ⟨keysNodup_updateRecord _ _ _ hK, ?_, ?_, ?_⟩
  · intro id' r' hf
    by_cases hid : id' = j.notificationId
    · subst hid
      rw [findRecord_updateRecord_self] at hf
      injection hf with hf
      subst hf
      obtain ⟨h1, h2, h3, h4, h5, h6⟩ := hrec
      exact ⟨h1, h2, h3, h4, h5, h6, (hR _ r hfind).2.2.2.2.2.2⟩
    · rw [findRecord_updateRecord_other _ _ _ _ hid] at hf
      exact hR id' r' hf
  · intro n jn hjn
    by_cases hni : n = i
    · subst hni
      rw [List.get?_set_eq_of_lt _ hilen] at hjn
      injection hjn with hjn
      subst hjn
      refine ⟨hnid ▸ (hJ n j hj).1, fun rr hf => ?_⟩
      rw [hnid, findRecord_updateRecord_self] at hf
      injection hf with hf
      subst hf
      exact hj2
    · rw [List.get?_set_ne _ _ (fun e => hni e.symm)] at hjn
      obtain ⟨hmem, hrel⟩ := hJ n jn hjn
      refine ⟨hmem, fun rr hf => ?_⟩
      have hne : jn.notificationId ≠ j.notificationId := hD n i jn j hjn hj hni
      rw [findRecord_updateRecord_other _ _ _ _ hne] at hf
      exact hrel rr hf
  · exact jobsDistinct_set_aux s.jobs i j j2 hj hnid hD

theorem sysInv_update_record (s : SysState) (id : String) (r r2 : NotificationRecord)
    (hfind : findRecord s.store id = some r)
    (hrec : recordOk r2)
    (hcompat : r2.ntype = r.ntype ∧ r2.maxAttempts = r.maxAttempts ∧
      r2.attempts = r.attempts ∧ r2.status ≠ "failed")
    (h : SysInv s) :
    SysInv { s with store := updateRecord s.store id r2 } := by
  obtain ⟨hK, hR, hJ, hD⟩ := h
  refine ⟨keysNodup_updateRecord _ _ _ hK, ?_, ?_, hD⟩
  · intro id' r' hf
    by_cases hid : id' = id
    · subst hid
      rw [findRecord_updateRecord_self] at hf
      injection hf with hf
      subst hf
      obtain ⟨h1, h2, h3, h4, h5, h6⟩ := hrec
      exact ⟨h1, h2, h3, h4, h5, h6, (hR _ r hfind).2.2.2.2.2.2⟩
    · rw [findRecord_updateRecord_other _ _ _ _ hid] at hf
      exact hR id' r' hf
  · intro n jn hjn
    obtain ⟨hmem, hrel⟩ := hJ n jn hjn
    refine ⟨hmem, fun rr hf => ?_⟩
    by_cases hid : jn.notificationId = id
    · rw [hid, findRecord_updateRecord_self] at hf
      injection hf with hf
      subst hf
      obtain ⟨ha, hb, hc, hd⟩ := hrel r (hid ▸ hfind)
      refine ⟨hcompat.1 ▸ ha, hcompat.2.1 ▸ hb, fun hcomp => ?_, fun hst => ?_⟩
      · exact hcompat.2.2.1 ▸ hc hcomp
      · exact absurd hst hcompat.2.2.2
    · rw [findRecord_updateRecord_other _ _ _ _ hid] at hf
      exact hrel rr hf

theorem sysInv_submit (s : SysState) (id : String) (p : SubmitPayload) (h : SysInv s) :
    SysInv (stepAction s (.submit id p)) := by
  obtain ⟨hK, hR, hJ, hD⟩ := h
  by_cases hc : validSubmission p = true ∧ id ∉ s.usedIds
  · simp only [stepAction]
    rw [if_pos hc]
    obtain ⟨hval, hfresh⟩ := hc
    refine ⟨keysNodup_updateRecord _ _ _ hK, ?_, ?_, ?_⟩
    · intro id' r' hf
      by_cases hid : id' = id
      · subst hid
        rw [findRecord_updateRecord_self] at hf
        injection hf with hf
        subst hf
        refine ⟨?_, ?_, ?_, ?_, ?_, ?_, List.mem_cons_self _ _⟩ <;>
          simp [recordOfSubmission]
      · rw [findRecord_updateRecord_other _ _ _ _ hid] at hf
        obtain ⟨h1, h2, h3, h4, h5, h6, h7⟩ := hR id' r' hf
        exact ⟨h1, h2, h3, h4, h5, h6, List.mem_cons_of_mem _ h7⟩
    · intro n jn hjn
      by_cases hlt : n < s.jobs.length
      · rw [List.get?_append hlt] at hjn
        obtain ⟨hmem, hrel⟩ := hJ n jn hjn
        have hne : jn.notificationId ≠ id := fun e => hfresh (e ▸ hmem)
        refine ⟨List.mem_cons_of_mem _ hmem, fun r hf => ?_⟩
        rw [findRecord_updateRecord_other _ _ _ _ hne] at hf
        exact hrel r hf
      · rw [List.get?_append_right (Nat.le_of_not_lt hlt)] at hjn
        cases hm : n - s.jobs.length with
        | zero =>
            rw [hm] at hjn
            injection hjn with hjn
            subst hjn
            refine ⟨List.mem_cons_self _ _, fun r hf => ?_⟩
            rw [show (addToQueue s.nextSeq id (recordOfSubmission p s.nextSeq)
                p.priority).notificationId = id from rfl,
              findRecord_updateRecord_self] at hf
            injection hf with hf
            subst hf
            refine ⟨rfl, rfl, fun _ => ?_, fun hst => ?_⟩
            · simp [addToQueue, recordOfSubmission]
            · exact absurd hst (by simp [recordOfSubmission])
        | succ m =>
            rw [hm] at hjn
            cases hjn
    · intro a b ja jb ha hb hab
      by_cases hal : a < s.jobs.length
      · rw [List.get?_append hal] at ha
        by_cases hbl : b < s.jobs.length
        · rw [List.get?_append hbl] at hb
          exact hD a b ja jb ha hb hab
        · rw [List.get?_append_right (Nat.le_of_not_lt hbl)] at hb
          cases hm : b - s.jobs.length with
          | zero =>
              rw [hm] at hb
              injection hb with hb
              subst hb
              have hmem := (hJ a ja ha).1
              intro e
              have e2 : (addToQueue s.nextSeq id (recordOfSubmission p s.nextSeq)
                  p.priority).notificationId = id := rfl
              rw [e2] at e
              exact hfresh (e ▸ hmem)
          | succ m =>
              rw [hm] at hb
              cases hb
      · rw [List.get?_append_right (Nat.le_of_not_lt hal)] at ha
        cases hm : a - s.jobs.length with
        | succ m =>
            rw [hm] at ha
            cases ha
        | zero =>
            rw [hm] at ha
            injection ha with ha
            subst ha
            by_cases hbl : b < s.jobs.length
            · rw [List.get?_append hbl] at hb
              have hmem := (hJ b jb hb).1
              intro e
              have e2 : (addToQueue s.nextSeq id (recordOfSubmission p s.nextSeq)
                  p.priority).notificationId = id := rfl
              rw [e2] at e
              exact hfresh (e.symm ▸ hmem)
            · rw [List.get?_append_right (Nat.le_of_not_lt hbl)] at hb
              cases hm' : b - s.jobs.length with
              | succ m' =>
                  rw [hm'] at hb
                  cases hb
              | zero =>
                  rw [hm'] at hb
                  exact absurd (by omega : a = b) hab
  · simp only [stepAction]
    rw [if_neg hc]
    exact ⟨hK, hR, hJ, hD⟩

theorem sysInv_work (s : SysState) (i : Nat) (env : SendEnv) (now : Nat) (h : SysInv s) :
    SysInv (stepAction s (.work i env now)) := by
  cases hj : s.jobs.get? i with
  | none =>
      simp only [stepAction]
      rw [hj]
      exact h
  | some j =>
      by_cases hrun : j.completed = false ∧ j.attemptsMade < j.optsAttempts
      · obtain ⟨hc, hlt⟩ := hrun
        rw [stepAction_work_run s i j env now hj hc hlt]
        obtain ⟨hK, hR, hJ, hD⟩ := h
        cases hr : findRecord s.store j.notificationId with
        | none =>
            rw [processNotification_missing env now s.store j hr]
            refine sysInv_set_job s i j _ _ hj rfl ?_ ⟨hK, hR, hJ, hD⟩
            intro r hf
            rw [hr] at hf
            cases hf
        | some r =>
            have hjr : jobRecOk j r := (hJ i j hj).2 r hr
            have hclauses := hR j.notificationId r hr
            by_cases hsent : r.status = "sent"
            · rw [processNotification_alreadySent env now s.store j r hr hsent]
              refine sysInv_set_job s i j _ _ hj rfl ?_ ⟨hK, hR, hJ, hD⟩
              intro rr hf
              rw [hr] at hf
              injection hf with hf
              subst hf
              refine ⟨hjr.1, hjr.2.1, fun hcomp => ?_, fun _ => Or.inl rfl⟩
              simp [applyResult] at hcomp
            · have hnotfailed : r.status ≠ "failed" := by
                intro hf
                rcases hjr.2.2.2 hf with hcm | hle
                · rw [hc] at hcm
                  cases hcm
                · omega
              have hsentAt : r.sentAt = none :=
                Option.not_isSome_iff_eq_none.mp (fun hss => hsent (hclauses.1 hss))
              have hfailedAt : r.failedAt = none :=
                Option.not_isSome_iff_eq_none.mp (fun hss => hnotfailed (hclauses.2.1 hss))
              have hattle : r.attempts ≤ j.attemptsMade := hjr.2.2.1 hc
              have hoptmax : j.optsAttempts = r.maxAttempts := hjr.2.1
              cases hd : dispatch env j.jtype (incrementAttempts r) with
              | ok =>
                  rw [processNotification_success env now s.store j r hr hsent hd]
                  refine sysInv_update_work s i j _ _ r _ hj hr rfl ?_ ?_ ⟨hK, hR, hJ, hD⟩
                  · refine ⟨fun _ => rfl, ?_, fun _ => rfl, ?_, fun _ => ?_, ?_⟩
                    · intro hss
                      simp [markAsSent, incrementAttempts, hfailedAt] at hss
                    · intro hst
                      simp only [markAsSent] at hst
                      exact absurd hst (by decide)
                    · simp [markAsSent, incrementAttempts, hfailedAt]
                    · simp only [markAsSent, incrementAttempts]
                      omega
                  · exact ⟨hjr.1, hjr.2.1, fun hcomp => by simp [applyResult] at hcomp,
                      fun _ => Or.inl rfl⟩
              | err msg =>
                  have hnotInApp : r.ntype ≠ "in-app" := by
                    intro hia
                    have hjt : j.jtype = "in-app" := hjr.1.trans hia
                    rw [hjt] at hd
                    have : dispatch env "in-app" (incrementAttempts r) = .ok := rfl
                    rw [this] at hd
                    cases hd
                  by_cases hfin : j.attemptsMade + 1 ≥ j.optsAttempts
                  · rw [processNotification_err_final env now s.store j r msg hr hsent hd hfin]
                    refine sysInv_update_work s i j _ _ r _ hj hr rfl ?_ ?_ ⟨hK, hR, hJ, hD⟩
                    · refine ⟨?_, fun _ => rfl, ?_, fun _ => rfl, fun hia => ?_, ?_⟩
                      · intro hss
                        simp [markAsFailed, incrementAttempts, hsentAt] at hss
                      · intro hst
                        simp only [markAsFailed, incrementAttempts] at hst
                        exact absurd hst (by decide)
                      · exact absurd hia hnotInApp
                      · simp only [markAsFailed, incrementAttempts]
                        omega
                    · refine ⟨hjr.1, hjr.2.1, fun _ => ?_, fun _ => Or.inr ?_⟩
                      · simp only [markAsFailed, incrementAttempts, applyResult]
                        omega
                      · simp only [applyResult]
                        omega
                  · rw [processNotification_err_retry env now s.store j r msg hr hsent hd hfin]
                    refine sysInv_update_work s i j _ _ r _ hj hr rfl ?_ ?_ ⟨hK, hR, hJ, hD⟩
                    · refine ⟨?_, ?_, ?_, ?_, fun _ => ?_, ?_⟩
                      · intro hss
                        simp [incrementAttempts, hsentAt] at hss
                      · intro hss
                        simp [incrementAttempts, hfailedAt] at hss
                      · intro hst
                        simp only [incrementAttempts] at hst
                        exact absurd hst (by decide)
                      · intro hst
                        simp only [incrementAttempts] at hst
                        exact absurd hst (by decide)
                      · simp [incrementAttempts, hfailedAt]
                      · simp only [incrementAttempts]
                        omega
                    · refine ⟨hjr.1, hjr.2.1, fun _ => ?_, fun hst => ?_⟩
                      · simp only [incrementAttempts, applyResult]
                        omega
                      · simp only [incrementAttempts] at hst
                        exact absurd hst (by decide)
      · simp only [stepAction]
        rw [hj]
        dsimp only
        rw [if_neg hrun]
        exact h

theorem sysInv_read (s : SysState) (userId id : String) (now : Nat) (h : SysInv s) :
    SysInv (stepAction s (.readRoute userId id now)) := by
  cases hr : findRecord s.store id with
  | none =>
      simp only [stepAction]
      rw [hr]
      exact h
  | some r =>
      simp only [stepAction]
      rw [hr]
      dsimp only
      by_cases hg : r.userId = userId ∧ r.ntype = "in-app"
      · rw [if_pos hg]
        have hclauses := h.2.1 id r hr
        have hfailedAt : r.failedAt = none := hclauses.2.2.2.2.1 hg.2
        refine sysInv_update_record s id r _ hr ?_ ?_ h
        · refine ⟨fun _ => rfl, ?_, fun _ => rfl, ?_, fun _ => ?_, ?_⟩
          · intro hss
            simp [markAsSent, hfailedAt] at hss
          · intro hst
            simp only [markAsSent] at hst
            exact absurd hst (by decide)
          · simp [markAsSent, hfailedAt]
          · simp only [markAsSent]
            exact hclauses.2.2.2.2.2.1
        · exact ⟨rfl, rfl, rfl, by simp only [markAsSent]; decide⟩
      · rw [if_neg hg]
        exact h

theorem sysInv_delete (s : SysState) (id : String) (h : SysInv s) :
    SysInv (stepAction s (.deleteRoute id)) := by
  obtain ⟨hK, hR, hJ, hD⟩ := h
  simp only [stepAction]
  refine ⟨keysNodup_deleteRecord _ _ hK, ?_, ?_, hD⟩
  · intro id' r' hf
    exact hR id' r' (findRecord_deleteRecord_some s.store id id' r' hK hf)
  · intro n jn hjn
    obtain ⟨hmem, hrel⟩ := hJ n jn hjn
    exact ⟨hmem, fun r hf => hrel r (findRecord_deleteRecord_some s.store id _ r hK hf)⟩

theorem sysInv_step (s : SysState) (a : SysAction) (h : SysInv s) : SysInv (stepAction s a) := by
  cases a with
  | submit id p => exact sysInv_submit s id p h
  | work i env now => exact sysInv_work s i env now h
  | readRoute userId id now => exact sysInv_read s userId id now h
  | deleteRoute id => exact sysInv_delete s id h
  | retryJob i => exact h

theorem sysInv_runActions (acts : List SysAction) (s : SysState) (h : SysInv s) :
    SysInv (runActions s acts) := by
  induction acts generalizing s with
  | nil => exact h
  | cons a rest ih => exact ih (stepAction s a) (sysInv_step s a h)

/-- Claim C3: in every state reachable by any sequence of submissions,
worker attempts (scheduled within the queue's attempt budget), operator
retries, read-route and delete-route events, every stored record
satisfies attempts ≤ maxAttempts. -/
theorem C3_attempts_bounded (acts : List SysAction) (id : String) (r : NotificationRecord)
    (hf : findRecord (runActions initState acts).store id = some r) :
    r.attempts ≤ r.maxAttempts :=
  ((sysInv_runActions acts initState sysInv_initState).2.1 id r hf).2.2.2.2.2.1

/-- Claim C6: in every reachable state, no record ever has both `sentAt`
and `failedAt` set, and once its status is terminal ("sent" or "failed")
exactly one of the two timestamps is set. -/
theorem C6_terminal_timestamps (acts : List SysAction) (id : String) (r : NotificationRecord)
    (hf : findRecord (runActions initState acts).store id = some r) :
    (¬ (r.sentAt.isSome ∧ r.failedAt.isSome)) ∧
    ((r.status = "sent" ∨ r.status = "failed") →
      (r.sentAt.isSome ∧ r.failedAt = none) ∨ (r.failedAt.isSome ∧ r.sentAt = none)) := by
  have hc := (sysInv_runActions acts initState sysInv_initState).2.1 id r hf
  obtain ⟨h1, h2, h3, h4, _, _, _⟩ := hc
  have hboth : ¬ (r.sentAt.isSome ∧ r.failedAt.isSome) := by
    rintro ⟨hs, hfa⟩
    have e1 := h1 hs
    have e2 := h2 hfa
    rw [e1] at e2
    exact absurd e2 (by decide)
  refine ⟨hboth, ?_⟩
  rintro (hst | hst)
  · refine Or.inl ⟨h3 hst, ?_⟩
    by_cases hfa : r.failedAt.isSome
    · rw [h2 hfa] at hst
      exact absurd hst (by decide)
    · exact Option.not_isSome_iff_eq_none.mp hfa
  · refine Or.inr ⟨h4 hst, ?_⟩
    by_cases hsa : r.sentAt.isSome
    · rw [h1 hsa] at hst
      exact absurd hst (by decide)
    · exact Option.not_isSome_iff_eq_none.mp hsa

/-- A sequence of worker runs of job `i`, one per (environment,
timestamp) pair. -/
def workList (i : Nat) (l : List (SendEnv × Nat)) : List SysAction :=
  l.map fun p => .work i p.1 p.2

/-- The loop the queue drives when every attempt of job `i` fails: each
run increments the record's attempts, and the final budgeted run marks
the record failed with the last error and timestamp. -/
theorem exhaust_loop (l : List (SendEnv × Nat)) :
    ∀ (s : SysState) (i : Nat) (j : Job) (r : NotificationRecord) (em : SendEnv → String),
    s.jobs.get? i = some j →
    findRecord s.store j.notificationId = some r →
    j.completed = false →
    r.attempts = j.attemptsMade →
    l.length + j.attemptsMade = j.optsAttempts →
    r.status ≠ "sent" →
    (∀ p ∈ l, ∀ x : NotificationRecord, x.recipient = r.recipient →
      dispatch p.1 j.jtype x = .err (em p.1)) →
    ∀ lastp, l.getLast? = some lastp →
    ∃ r', findRecord (runActions s (workList i l)).store j.notificationId = some r' ∧
      r'.attempts = j.optsAttempts ∧ r'.status = "failed" ∧
      r'.failedAt = some lastp.2 ∧ r'.errorMessage = some (em lastp.1) ∧
      r'.maxAttempts = r.maxAttempts ∧
      (runActions s (workList i l)).calls = s.calls + l.length := by
  induction l with
  | nil =>
      intro s i j r em _ _ _ _ _ _ _ lastp hlast
      cases hlast
  | cons p rest ih =>
      intro s i j r em hj hr hcomp hatt hlen hst hfail lastp hlast
      obtain ⟨e, t⟩ := p
      have hlen' : rest.length + 1 + j.attemptsMade = j.optsAttempts := by
        simpa using hlen
      have hlt : j.attemptsMade < j.optsAttempts := by omega
      have hd : dispatch e j.jtype (incrementAttempts r) = .err (em e) :=
        hfail (e, t) (List.mem_cons_self _ _) (incrementAttempts r) rfl
      simp only [workList, List.map_cons, runActions]
      rw [stepAction_work_run s i j e t hj hcomp hlt]
      by_cases hrest : rest = []
      · have hr0 : rest.length = 0 := by rw [hrest]; rfl
        subst hrest
        have hfin : j.attemptsMade + 1 ≥ j.optsAttempts := by omega
        rw [processNotification_err_final e t s.store j r (em e) hr hst hd hfin]
        have hlast' : lastp = (e, t) := by
          simp only [List.getLast?_singleton] at hlast
          injection hlast with h
          exact h.symm
        subst hlast'
        simp only [List.map_nil, runActions]
        refine ⟨markAsFailed (incrementAttempts r) (em e) t, ?_, ?_, rfl, rfl, rfl, rfl, ?_⟩
        · exact findRecord_updateRecord_self _ _ _
        · simp only [markAsFailed, incrementAttempts]
          omega
        · simp
      · have hrlen : 1 ≤ rest.length := by
          cases rest with
          | nil => exact absurd rfl hrest
          | cons q rest2 => simp
        have hnf : ¬ j.attemptsMade + 1 ≥ j.optsAttempts := by omega
        rw [processNotification_err_retry e t s.store j r (em e) hr hst hd hnf]
        dsimp only
        have hilen : i < s.jobs.length := get?_some_lt _ _ _ hj
        have hget : (s.jobs.set i (applyResult j (.errored (em e)))).get? i =
            some (applyResult j (.errored (em e))) := List.get?_set_eq_of_lt _ hilen
        have hlast2 : rest.getLast? = some lastp := by
          cases rest with
          | nil => exact absurd rfl hrest
          | cons q rest2 =>
              rw [List.getLast?_cons_cons] at hlast
              exact hlast
        obtain ⟨r', h1, h2, h3, h4, h5, h6, h7⟩ :=
          ih { s with
                store := updateRecord s.store j.notificationId (incrementAttempts r)
                jobs := s.jobs.set i (applyResult j (.errored (em e)))
                calls := s.calls + 1 }
            i (applyResult j (.errored (em e))) (incrementAttempts r) em hget
            (findRecord_updateRecord_self s.store j.notificationId (incrementAttempts r))
            hcomp
            (by simp only [applyResult, incrementAttempts]; omega)
            (by simp only [applyResult]; omega)
            (by simp only [incrementAttempts]; decide)
            (fun q hq x hx => hfail q (List.mem_cons_of_mem _ hq) x hx)
            lastp hlast2
        refine ⟨r', h1, ?_, h3, h4, h5, h6, ?_⟩
        · rw [h2]
          simp only [applyResult]
        · have hlc : s.calls + ((e, t) :: rest).length = s.calls + 1 + rest.length := by
            simp only [List.length_cons]
            omega
          rw [hlc]
          exact h7

/-- The state right after one successful POST /notifications that stored
record `r` under the fresh id `id` and enqueued its single job
(generalized over the stored record so that any maxAttempts can be
exercised). -/
def singleJobState (id : String) (r : NotificationRecord) (seq : Nat) (pr : Option String) :
    SysState :=
  { store := [(id, r)]
    jobs := [addToQueue seq id r pr]
    usedIds := [id]
    nextSeq := seq + 1
    calls := 0 }

/-- Claim C5: a freshly queued notification whose sender fails on every
attempt ends, after exactly maxAttempts processor runs, as "failed" with
`failedAt` stamped by the final attempt and `errorMessage` equal to the
final attempt's error text. -/
theorem C5_retryable_exhaustion (id : String) (r : NotificationRecord) (seq : Nat)
    (pr : Option String) (l : List (SendEnv × Nat)) (em : SendEnv → String)
    (lastp : SendEnv × Nat)
    (hst : r.status = "queued") (hatt : r.attempts = 0)
    (hlen : l.length = r.maxAttempts)
    (hfail : ∀ p ∈ l, ∀ x : NotificationRecord, x.recipient = r.recipient →
      dispatch p.1 r.ntype x = .err (em p.1))
    (hlast : l.getLast? = some lastp) :
    ∃ r', findRecord (runActions (singleJobState id r seq pr) (workList 0 l)).store id =
        some r' ∧
      r'.attempts = r.maxAttempts ∧ r'.status = "failed" ∧
      r'.failedAt = some lastp.2 ∧ r'.errorMessage = some (em lastp.1) ∧
      (runActions (singleJobState id r seq pr) (workList 0 l)).calls = r.maxAttempts := by
  obtain ⟨r', h1, h2, h3, h4, h5, h6, h7⟩ :=
    exhaust_loop l (singleJobState id r seq pr) 0 (addToQueue seq id r pr) r em rfl
      (by simp [singleJobState, findRecord, addToQueue])
      rfl hatt
      (by simp only [addToQueue]; omega)
      (by rw [hst]; decide)
      hfail lastp hlast
  refine ⟨r', h1, ?_, h3, h4, h5, ?_⟩
  · rw [h2]
    rfl
  · rw [h7]
    simp only [singleJobState]
    omega

def invalidSMSPayload : SubmitPayload :=
  { userId := "u1", ptype := "sms", subject := none, message := "Hi",
    recipient := some "not-a-number", priority := none }

def okEnv : SendEnv :=
  { smsReady := true, smsTransport := .ok, emailReady := true, emailTransport := .ok }

/-- Claim C4, refuted: submitting an SMS notification with the invalid
recipient "not-a-number" and running its first attempt does NOT move the
record directly to "failed": after the single attempt the record is
"processing" with one attempt consumed and no failedAt, and the queue
goes on to invoke the processor twice more (three invocations in total)
before the record fails — the invalid-recipient error enters the
ordinary retry path because the processor has no retryability
distinction. -/
theorem C4_counterexample :
    ((findRecord (runActions initState
        [.submit "n1" invalidSMSPayload, .work 0 okEnv 7]).store "n1").map
      NotificationRecord.status = some "processing") ∧
    ((findRecord (runActions initState
        [.submit "n1" invalidSMSPayload, .work 0 okEnv 7]).store "n1").map
      NotificationRecord.status ≠ some "failed") ∧
    ((findRecord (runActions initState
        [.submit "n1" invalidSMSPayload, .work 0 okEnv 7]).store "n1").map
      NotificationRecord.attempts = some 1) ∧
    ((findRecord (runActions initState
        [.submit "n1" invalidSMSPayload, .work 0 okEnv 7]).store "n1").map
      NotificationRecord.failedAt = some none) ∧
    (runActions initState
      [.submit "n1" invalidSMSPayload, .work 0 okEnv 7]).calls = 1 ∧
    (runActions initState
      [.submit "n1" invalidSMSPayload, .work 0 okEnv 7, .work 0 okEnv 8,
        .work 0 okEnv 9]).calls = 3 ∧
    ((findRecord (runActions initState
        [.submit "n1" invalidSMSPayload, .work 0 okEnv 7, .work 0 okEnv 8,
          .work 0 okEnv 9]).store "n1").map NotificationRecord.status = some "failed") := by
  exact ⟨rfl, by decide, rfl, rfl, rfl, rfl, rfl⟩

/-- Claim C4 as amended: an SMS notification whose recipient fails E.164
validation fails on every attempt with the invalid-format error; the
failure is retried like any other error, and the record reaches "failed"
only once the attempt budget is exhausted, with attempts = maxAttempts
and errorMessage "Invalid phone number format: <recipient>". -/
theorem C4_amended_invalid_recipient (id rec : String) (r : NotificationRecord) (seq : Nat)
    (pr : Option String) (l : List (SendEnv × Nat)) (lastp : SendEnv × Nat)
    (htype : r.ntype = "sms") (hrec : r.recipient = some rec)
    (hinv : isValidPhoneNumber rec = false)
    (hready : ∀ p ∈ l, p.1.smsReady = true)
    (hst : r.status = "queued") (hatt : r.attempts = 0)
    (hlen : l.length = r.maxAttempts) (hlast : l.getLast? = some lastp) :
    ∃ r', findRecord (runActions (singleJobState id r seq pr) (workList 0 l)).store id =
        some r' ∧
      r'.attempts = r.maxAttempts ∧ r'.status = "failed" ∧
      r'.failedAt = some lastp.2 ∧
      r'.errorMessage = some ("Invalid phone number format: " ++ rec) := by
  obtain ⟨r', h1, h2, h3, h4, h5, h6⟩ :=
    C5_retryable_exhaustion id r seq pr l (fun _ => "Invalid phone number format: " ++ rec)
      lastp hst hatt hlen
      (by
        intro p hp x hx
        rw [htype]
        have hx' : x.recipient = some rec := hx.trans hrec
        simp [dispatch, sendSMS, hready p hp, hx', hinv])
      hlast
  exact ⟨r', h1, h2, h3, h4, h5⟩

/-- The retry loop on a job whose record is missing: every run throws
RecordNotFound, the store is never touched, each run consumes one unit
of the attempt budget, and the job ends with its budget exhausted. -/
theorem missing_loop (l : List (SendEnv × Nat)) :
    ∀ (s : SysState) (i : Nat) (j : Job),
    s.jobs.get? i = some j →
    findRecord s.store j.notificationId = none →
    j.completed = false →
    l.length + j.attemptsMade = j.optsAttempts →
    (runActions s (workList i l)).store = s.store ∧
    (runActions s (workList i l)).calls = s.calls + l.length ∧
    ∃ j', (runActions s (workList i l)).jobs.get? i = some j' ∧
      j'.optsAttempts ≤ j'.attemptsMade := by
  induction l with
  | nil =>
      intro s i j hj _ _ hlen
      refine ⟨rfl, by simp [workList, runActions], j, hj, ?_⟩
      simp only [List.length_nil] at hlen
      omega
  | cons p rest ih =>
      intro s i j hj hr hcomp hlen
      obtain ⟨e, t⟩ := p
      have hlen' : rest.length + 1 + j.attemptsMade = j.optsAttempts := by simpa using hlen
      have hlt : j.attemptsMade < j.optsAttempts := by omega
      simp only [workList, List.map_cons, runActions]
      rw [stepAction_work_run s i j e t hj hcomp hlt]
      rw [processNotification_missing e t s.store j hr]
      dsimp only
      have hilen : i < s.jobs.length := get?_some_lt _ _ _ hj
      have hget : (s.jobs.set i (applyResult j
          (.errored ("Notification not found: " ++ j.notificationId)))).get? i =
          some (applyResult j (.errored ("Notification not found: " ++ j.notificationId))) :=
        List.get?_set_eq_of_lt _ hilen
      obtain ⟨ha, hb, j', hc, hd⟩ :=
        ih { s with
              jobs := s.jobs.set i (applyResult j
                (.errored ("Notification not found: " ++ j.notificationId)))
              calls := s.calls + 1 }
          i (applyResult j (.errored ("Notification not found: " ++ j.notificationId)))
          hget hr hcomp
          (by simp only [applyResult]; omega)
      exact ⟨ha, hb.trans (by simp only [List.length_cons]; omega), j', hc, hd⟩

/-- Claim C7, refuted: when a queued job's record has been deleted, the
first processor run throws RecordNotFound — but the job is NOT
abandoned: the queue re-invokes the processor until the attempt budget
is exhausted (three invocations in total for the default budget of 3),
because the processor rethrows the error into the ordinary retry path.
The store stays untouched throughout. -/
theorem C7_counterexample :
    (runActions initState
      [.submit "n1" invalidSMSPayload, .deleteRoute "n1", .work 0 okEnv 1]).calls = 1 ∧
    (runActions initState
      [.submit "n1" invalidSMSPayload, .deleteRoute "n1", .work 0 okEnv 1, .work 0 okEnv 2,
        .work 0 okEnv 3, .work 0 okEnv 4]).calls = 3 ∧
    (runActions initState
      [.submit "n1" invalidSMSPayload, .deleteRoute "n1", .work 0 okEnv 1, .work 0 okEnv 2,
        .work 0 okEnv 3, .work 0 okEnv 4]).store = [] := by
  exact ⟨rfl, rfl, rfl⟩

/-- Claim C7 as amended: a job referencing a missing record fails every
run with RecordNotFound and goes through the queue's ordinary retry
path: the processor is re-invoked once per remaining unit of attempt
budget, no record is ever created or modified, and once the budget is
exhausted further queue activity on the job is a no-op. -/
theorem C7_amended_missing_record (s : SysState) (i : Nat) (j : Job)
    (l : List (SendEnv × Nat))
    (hj : s.jobs.get? i = some j)
    (hr : findRecord s.store j.notificationId = none)
    (hcomp : j.completed = false)
    (hlen : l.length + j.attemptsMade = j.optsAttempts) :
    (runActions s (workList i l)).store = s.store ∧
    (runActions s (workList i l)).calls = s.calls + l.length ∧
    ∀ e t, stepAction (runActions s (workList i l)) (.work i e t) =
      runActions s (workList i l) := by
  obtain ⟨ha, hb, j', hc, hd⟩ := missing_loop l s i j hj hr hcomp hlen
  refine ⟨ha, hb, fun e t => ?_⟩
  simp only [stepAction]
  rw [hc]
  dsimp only
  rw [if_neg]
  rintro ⟨_, hlt⟩
  omega

def emailPayload : SubmitPayload :=
  { userId := "u1", ptype := "email", subject := some "Hi", message := "Hello",
    recipient := some "a@b.com", priority := some "high" }

/-- The record produced by submitting `emailPayload` and running its job
once against a working transport. -/
def sentEmailRecord : NotificationRecord :=
  { userId := "u1", ntype := "email", subject := some "Hi", message := "Hello",
    recipient := some "a@b.com", status := "sent", priority := "high", attempts := 1,
    maxAttempts := 3, errorMessage := none, sentAt := some 5, failedAt := none,
    jobId := some 0 }

def wJob : Job :=
  { notificationId := "n1", jtype := "email", priorityRank := 3, attemptsMade := 1,
    optsAttempts := 3, seq := 0, completed := false }

/-- A transport environment whose email transport fails with message
`m`. -/
def failEnv (m : String) : SendEnv :=
  { smsReady := true, smsTransport := .ok, emailReady := true, emailTransport := .err m }

theorem C1_priority_ordering_witness :
    servedBefore (addToQueue 1 "b" (recordOfSubmission invalidSMSPayload 1) (some "high"))
        (addToQueue 0 "a" (recordOfSubmission emailPayload 0) (some "low")) = true ∧
    nextJob [addToQueue 0 "a" (recordOfSubmission emailPayload 0) (some "low"),
        addToQueue 1 "b" (recordOfSubmission invalidSMSPayload 1) (some "high")] =
      some (addToQueue 1 "b" (recordOfSubmission invalidSMSPayload 1) (some "high")) :=
  ⟨(C1_priority_ordering 0 1 "a" "b" (recordOfSubmission emailPayload 0)
      (recordOfSubmission invalidSMSPayload 1) (by decide)).1,
   (C1_priority_ordering 0 1 "a" "b" (recordOfSubmission emailPayload 0)
      (recordOfSubmission invalidSMSPayload 1) (by decide)).2.1⟩

theorem C2_already_sent_idempotent_witness :
    processNotification okEnv 9 [("n1", sentEmailRecord)] wJob =
      (.alreadySent, [("n1", sentEmailRecord)]) :=
  (C2_already_sent_idempotent okEnv okEnv 9 9 [("n1", sentEmailRecord)] wJob
    sentEmailRecord (by rfl) rfl).1

theorem C3_attempts_bounded_witness :
    (recordOfSubmission invalidSMSPayload 0).attempts ≤
      (recordOfSubmission invalidSMSPayload 0).maxAttempts :=
  C3_attempts_bounded [.submit "n1" invalidSMSPayload] "n1"
    (recordOfSubmission invalidSMSPayload 0) (by rfl)

theorem C4_amended_invalid_recipient_witness :
    ∃ r', findRecord (runActions
        (singleJobState "n1" (recordOfSubmission invalidSMSPayload 0) 0 none)
        (workList 0 [(okEnv, 1), (okEnv, 2), (okEnv, 3)])).store "n1" = some r' ∧
      r'.attempts = (recordOfSubmission invalidSMSPayload 0).maxAttempts ∧
      r'.status = "failed" ∧ r'.failedAt = some 3 ∧
      r'.errorMessage = some ("Invalid phone number format: " ++ "not-a-number") :=
  C4_amended_invalid_recipient "n1" "not-a-number" (recordOfSubmission invalidSMSPayload 0)
    0 none [(okEnv, 1), (okEnv, 2), (okEnv, 3)] (okEnv, 3) rfl rfl (by decide)
    (by
      intro p hp
      simp only [List.mem_cons, List.not_mem_nil, or_false] at hp
      rcases hp with rfl | rfl | rfl <;> rfl)
    rfl rfl rfl rfl

theorem C5_retryable_exhaustion_witness :
    ∃ r', findRecord (runActions
        (singleJobState "n5" (recordOfSubmission emailPayload 0) 0 (some "high"))
        (workList 0 [(failEnv "e1", 1), (failEnv "e2", 2), (failEnv "e3", 3)])).store "n5" =
          some r' ∧
      r'.attempts = (recordOfSubmission emailPayload 0).maxAttempts ∧
      r'.status = "failed" ∧ r'.failedAt = some 3 ∧
      r'.errorMessage = some "e3" ∧
      (runActions (singleJobState "n5" (recordOfSubmission emailPayload 0) 0 (some "high"))
        (workList 0 [(failEnv "e1", 1), (failEnv "e2", 2), (failEnv "e3", 3)])).calls =
        (recordOfSubmission emailPayload 0).maxAttempts :=
  C5_retryable_exhaustion "n5" (recordOfSubmission emailPayload 0) 0 (some "high")
    [(failEnv "e1", 1), (failEnv "e2", 2), (failEnv "e3", 3)]
    (fun e => match e.emailTransport with | .err m => m | .ok => "") (failEnv "e3", 3)
    rfl rfl rfl
    (by
      intro p hp x hx
      simp only [List.mem_cons, List.not_mem_nil, or_false] at hp
      rcases hp with rfl | rfl | rfl <;> rfl)
    rfl

theorem C6_terminal_timestamps_witness :
    (¬ (sentEmailRecord.sentAt.isSome ∧ sentEmailRecord.failedAt.isSome)) ∧
    ((sentEmailRecord.sentAt.isSome ∧ sentEmailRecord.failedAt = none) ∨
      (sentEmailRecord.failedAt.isSome ∧ sentEmailRecord.sentAt = none)) := by
  have h := C6_terminal_timestamps [.submit "n1" emailPayload, .work 0 okEnv 5] "n1"
    sentEmailRecord (by rfl)
  exact ⟨h.1, h.2 (Or.inl rfl)⟩

theorem C7_amended_missing_record_witness :
    (runActions (runActions initState [.submit "n1" invalidSMSPayload, .deleteRoute "n1"])
      (workList 0 [(okEnv, 1), (okEnv, 2), (okEnv, 3)])).store =
      (runActions initState [.submit "n1" invalidSMSPayload, .deleteRoute "n1"]).store ∧
    (runActions (runActions initState [.submit "n1" invalidSMSPayload, .deleteRoute "n1"])
      (workList 0 [(okEnv, 1), (okEnv, 2), (okEnv, 3)])).calls =
      (runActions initState [.submit "n1" invalidSMSPayload, .deleteRoute "n1"]).calls + 3 :=
  ⟨(C7_amended_missing_record
      (runActions initState [.submit "n1" invalidSMSPayload, .deleteRoute "n1"]) 0
      (addToQueue 0 "n1" (recordOfSubmission invalidSMSPayload 0) none)
      [(okEnv, 1), (okEnv, 2), (okEnv, 3)] (by rfl) (by rfl) rfl rfl).1,
   (C7_amended_missing_record
      (runActions initState [.submit "n1" invalidSMSPayload, .deleteRoute "n1"]) 0
      (addToQueue 0 "n1" (recordOfSubmission invalidSMSPayload 0) none)
      [(okEnv, 1), (okEnv, 2), (okEnv, 3)] (by rfl) (by rfl) rfl rfl).2.1⟩

theorem C8_amended_witness :
    isValidPhoneNumber "+12025550123" = true ↔ amendedPhonePattern "+12025550123" :=
  C8_amended "+12025550123"

theorem C9_sms_truncation_witness :
    (formatSMSMessage (List.replicate 2000 'a') none none).length ≤ 1600 ∧
    List.IsSuffix ("...").data (formatSMSMessage (List.replicate 2000 'a') none none) :=
  ⟨(C9_sms_truncation (List.replicate 2000 'a') none none).1,
   (C9_sms_truncation (List.replicate 2000 'a') none none).2.1
    (by
      have hc : composeSMS (List.replicate 2000 'a') none none = List.replicate 2000 'a' := rfl
      rw [hc, List.length_replicate]
      decide)⟩

theorem C10_amended_priority_default_witness :
    (addToQueue 0 "n" (recordOfSubmission emailPayload 0) (some "low")).priorityRank = 1 ∧
    (priorityOption "urgent" = .num 2 ∧
      (addToQueue 0 "n" (recordOfSubmission emailPayload 0) (some "urgent")).priorityRank = 2) ∧
    priorityOption "valueOf" = .protoMember "valueOf" :=
  ⟨(C10_amended_priority_default 0 "n" (recordOfSubmission emailPayload 0)).1,
   (C10_amended_priority_default 0 "n" (recordOfSubmission emailPayload 0)).2.2.2.2.1 "urgent"
     (by decide) (by decide) (by decide) (by decide),
   (C10_amended_priority_default 0 "n" (recordOfSubmission emailPayload 0)).2.2.2.2.2 "valueOf"
     (by decide) (by decide) (by decide) (by decide)⟩
